import Mathlib

/-!
# Verification of the game-of-life engine (`Universe` / `Cell`)

A shallow embedding of `src/model/universe.rs`: a toroidal Conway-variant
cellular automaton with a per-cell heat value and a debounce (`ignore`)
counter.

Modelling conventions:

* `f32` heat values are modelled exactly, in fixed point: the `heat` field
  of the model stores the heat in units of `0.5`, as an `Int` (so the f32
  value `h` is stored as `2 * h`; the constant `1.0` becomes `2`, the step
  `+2.0` becomes `+4`, the step `-0.5` becomes `-1`, and the thresholds
  `1000.0` and `1.0` become `2000` and `2`).  Every heat value the program
  can produce is a multiple of `0.5` of magnitude below `2^11`; all such
  values are exactly representable in IEEE-754 binary32 and the
  additions/subtractions and comparisons performed on them are exact, so
  this integer fixed-point model is a faithful model of the Rust `f32`
  arithmetic on every value the program manipulates.  `Cell.heatValue`
  recovers the rational f32 value of a cell's heat.
* `usize` indices are modelled as `Nat`, `i64` as `Int`; the `as usize`
  cast in `fix_coords` is modelled by reduction modulo `2^64`.
* Rust's panicking index expressions (`rows[y][x]`) are modelled with
  `Option`-valued lookup: a read out of bounds yields a dead default and a
  write out of bounds is a no-op.  An execution that would panic in Rust
  has no resulting state, so this only enlarges the transition system;
  every concrete scenario below stays in bounds.
* `anyhow::Error` construction messages are modelled by the structured
  `ValidationError` type, carrying exactly the data interpolated into the
  corresponding Rust format strings.
-/

/-- Lookup of the `n`-th element of a list, `none` when out of bounds
(models Rust slice indexing, made total). -/
def nth {α : Type} : List α → Nat → Option α
  | [], _ => none
  | a :: _, 0 => some a
  | _ :: as, n + 1 => nth as n

/-- Pointwise update of the `n`-th element of a list; no-op out of bounds
(models a write through Rust slice indexing, made total). -/
def modifyL {α : Type} : List α → Nat → (α → α) → List α
  | [], _, _ => []
  | a :: as, 0, f => f a :: as
  | a :: as, n + 1, f => a :: modifyL as n f

/-- Grid lookup: `rows[y][x]` of the Rust code (row index first). -/
def get2 {α : Type} (rows : List (List α)) (y x : Nat) : Option α :=
  (nth rows y).bind (fun r => nth r x)

/-- Grid update at row `y`, column `x`. -/
def modify2 {α : Type} (rows : List (List α)) (y x : Nat) (f : α → α) :
    List (List α) :=
  modifyL rows y (fun r => modifyL r x f)

/-- `-1 as usize` style wrapping cast from `i64` to `usize`. -/
def usizeCast (i : Int) : Nat := (i % (2 : Int) ^ 64).toNat

/-- `fix_coords` from `universe.rs`: toroidal wrap of a coordinate pair,
as two sequential saturations per axis. -/
def fix_coords (width height : Nat) (coords : Int × Int) : Nat × Nat :=
  let x0 := coords.1
  let x1 := if x0 < 0 then (width : Int) - 1 else x0
  let x2 := if x1 ≥ (width : Int) then 0 else x1
  let y0 := coords.2
  let y1 := if y0 < 0 then (height : Int) - 1 else y0
  let y2 := if y1 ≥ (height : Int) then 0 else y1
  (usizeCast x2, usizeCast y2)

/-- The `Neighbours` struct: eight precomputed neighbour coordinates. -/
structure Neighbours where
  neighour_top : Nat × Nat
  neighour_bottom : Nat × Nat
  neighour_left : Nat × Nat
  neighour_right : Nat × Nat
  neighour_top_left : Nat × Nat
  neighour_top_right : Nat × Nat
  neighour_bottom_left : Nat × Nat
  neighour_bottom_right : Nat × Nat
deriving DecidableEq

/-- `Neighbours::to_vec`: the eight coordinates in source order. -/
def Neighbours.to_vec (n : Neighbours) : List (Nat × Nat) :=
  [n.neighour_top, n.neighour_bottom, n.neighour_left, n.neighour_right,
   n.neighour_top_left, n.neighour_top_right, n.neighour_bottom_left,
   n.neighour_bottom_right]

/-- The `Cell` struct.  `heat` is the f32 heat in units of `0.5` (see the
header comment): the stored integer is twice the f32 value. -/
structure Cell where
  x : Nat
  y : Nat
  alive : Bool
  neighbours : Neighbours
  ignore : Int
  heat : Int
deriving DecidableEq

/-- The f32 value of a cell's heat, recovered from the fixed-point field. -/
def Cell.heatValue (c : Cell) : ℚ := (c.heat : ℚ) / 2

/-- `Cell::new`: precompute the eight wrapped neighbour coordinates; the
cell starts with `ignore = 0` and `heat = 1.0`. -/
def Cell.new (width height x y : Nat) (alive : Bool) : Cell :=
  let x1 : Int := x
  let y1 : Int :=
    y
  { x := x
    y := y
    alive := alive
    neighbours :=
      { neighour_top := fix_coords width height (x1, y1 - 1)
        neighour_bottom := fix_coords width height (x1, y1 + 1)
        neighour_left := fix_coords width height (x1 - 1, y1)
        neighour_right := fix_coords width height (x1 + 1, y1)
        neighour_top_left := fix_coords width height (x1 - 1, y1 - 1)
        neighour_top_right := fix_coords width height (x1 + 1, y1 - 1)
        neighour_bottom_left := fix_coords width height (x1 - 1, y1 + 1)
        neighour_bottom_right := fix_coords width height (x1 + 1, y1 + 1) }
    ignore := 0
    heat := 2 }

/-- `Cell::coords`. -/
def Cell.coords (c : Cell) : Nat × Nat := (c.x, c.y)

/-- `Cell::increase_heat`: add `2.0` when the heat is below `1000.0`
(in half-units: add `4` when the stored value is below `2000`). -/
def Cell.increase_heat (c : Cell) : Cell :=
  if c.heat < 2000 then { c with heat := c.heat + 4 } else c

/-- `Cell::decrease_heat`: subtract `0.5` when the heat is above `1.0`
(in half-units: subtract `1` when the stored value is above `2`). -/
def Cell.decrease_heat (c : Cell) : Cell :=
  if c.heat > 2 then { c with heat := c.heat - 1 } else c

/-- `Cell::set_alive`: a death request against a live cell with a positive
debounce budget is suppressed and only decrements the budget; any other
request is applied and resets the budget. -/
def Cell.set_alive (c : Cell) (alive : Bool) (ignore : Int) : Cell :=
  if alive = false ∧ c.alive = true ∧ c.ignore > 0 then
    { c with ignore := c.ignore - 1 }
  else
    { c with ignore := ignore, alive := alive }

/-- `Cell::reset`. -/
def Cell.reset (c : Cell) : Cell :=
  { c with alive := false, ignore := 0, heat := 2 }

/-- The `Universe` struct. -/
structure Universe where
  rows : List (List Cell)
  paused : Bool
deriving DecidableEq

/-- Structured model of the three `anyhow!` errors of `Universe::new`. -/
inductive ValidationError where
  | notEnoughRows (got : Nat)
  | notEnoughCellsInRow (i : Nat) (got : Nat)
  | incorrectAmountInRow (i : Nat) (expected : Nat) (got : Nat)
deriving DecidableEq

/-- The validation loop of `Universe::new`: scan the rows, reporting the
first row that is empty or differs from the width of row 0. -/
def checkRows (width : Nat) : Nat → List (List Cell) → Option ValidationError
  | _, [] => none
  | i, r :: rs =>
    if r.length = 0 then some (.notEnoughCellsInRow i r.length)
    else if r.length ≠ width then
      some (.incorrectAmountInRow i width r.length)
    else checkRows width (i + 1) rs

/-- `Universe::new`: validate and wrap caller-provided rows; on success the
universe starts paused. -/
def Universe.new (rows : List (List Cell)) : Except ValidationError Universe :=
  match rows with
  | [] => .error (.notEnoughRows 0)
  | r0 :: _ =>
    match checkRows r0.length 0 rows with
    | some e => .error e
    | none => .ok ⟨rows, true⟩

/-- `Universe::from_dimensions`: build an all-dead `height × width` grid and
validate it through `Universe.new`. -/
def Universe.from_dimensions (width height : Nat) :
    Except ValidationError Universe :=
  Universe.new ((List.range height).map
    (fun i => (List.range width).map (fun j => Cell.new width height j i false)))

/-- `Universe::summarize`, at the level of the character data: a `*` per
live cell, a `.` per dead cell, a newline after each row. -/
def Universe.summarize (u : Universe) : String :=
  String.mk (u.rows.foldl
    (fun out row =>
      (row.foldl
        (fun o c => o ++ [if c.alive = true then Char.ofNat 42 else Char.ofNat 46])
        out) ++ [Char.ofNat 10])
    [])

/-- `Universe::reset`. -/
def Universe.reset (u : Universe) : Universe :=
  ⟨u.rows.map (List.map Cell.reset), u.paused⟩

/-- `Universe::set_alive` (indexes `rows[y][x]`). -/
def Universe.set_alive (u : Universe) (coords : Nat × Nat) (alive : Bool)
    (ignore : Int) : Universe :=
  ⟨modify2 u.rows coords.2 coords.1 (fun c => c.set_alive alive ignore), u.paused⟩

/-- `Universe::alive` (indexes `rows[y][x]`). -/
def Universe.alive (u : Universe) (coords : Nat × Nat) : Bool :=
  ((get2 u.rows coords.2 coords.1).map Cell.alive).getD false

/-- `Universe::increase_heat`. -/
def Universe.increase_heat (u : Universe) (coords : Nat × Nat) : Universe :=
  ⟨modify2 u.rows coords.2 coords.1 Cell.increase_heat, u.paused⟩

/-- `Universe::decrease_heat`. -/
def Universe.decrease_heat (u : Universe) (coords : Nat × Nat) : Universe :=
  ⟨modify2 u.rows coords.2 coords.1 Cell.decrease_heat, u.paused⟩

/-- The neighbour census of `Universe::tick`: count, over the eight
precomputed neighbour coordinates of `c`, the live cells of the snapshot. -/
def censusOf (snap : List (List Cell)) (c : Cell) : Nat :=
  c.neighbours.to_vec.foldl
    (fun n q => if ((get2 snap q.2 q.1).map Cell.alive).getD false = true
                then n + 1 else n)
    0

/-- The body of the double loop of `Universe::tick` for one snapshot cell
`c`: census from the snapshot, conditional rule application through
`Universe.set_alive` at `c`'s stored coordinates, then the heat update. -/
def tickCellStep (snap : List (List Cell)) (v : Universe) (c : Cell) :
    Universe :=
  let n := censusOf snap c
  let was := v.alive c.coords
  let v1 :=
    if v.paused = false then
      let va := if c.alive = true ∧ n < 2 then v.set_alive c.coords false 0 else v
      let vb := if c.alive = true ∧ n > 3 then va.set_alive c.coords false 0 else va
      if c.alive = false ∧ n = 3 then vb.set_alive c.coords true 0 else vb
    else v
  let isA := v1.alive c.coords
  if was = false ∧ isA = true then v1.increase_heat c.coords
  else v1.decrease_heat c.coords

/-- `Universe::tick`: snapshot the rows, then fold the per-cell body over
every snapshot cell in row-major order, mutating the universe in place. -/
def Universe.tick (u : Universe) : Universe :=
  let rows := u.rows
  rows.flatten.foldl (tickCellStep rows) u

/-- `Universe::pause`: toggle the pause flag. -/
def Universe.pause (u : Universe) : Universe :=
  ⟨u.rows, !u.paused⟩

/-! ## The pure per-cell step function and the snapshot refinement

`tickCellStep` mutates the universe through `Universe.set_alive` and the
heat operations, all at the processed cell's own stored coordinates.  On a
grid whose cells sit at their stored coordinates this collapses to a pure
function of the snapshot cell and its neighbour census. -/

/-- The rule-application phase of one tick, as a pure function on the cell:
`p` is the pause flag, `n` the neighbour census, both conditions and the
sequential `set_alive` calls mirror the body of `Universe::tick`. -/
def rulesApplied (p : Bool) (n : Nat) (c : Cell) : Cell :=
  if p = false then
    let a := if c.alive = true ∧ n < 2 then c.set_alive false 0 else c
    let b := if c.alive = true ∧ n > 3 then a.set_alive false 0 else a
    if c.alive = false ∧ n = 3 then b.set_alive true 0 else b
  else c

/-- One tick, as a pure function of a cell's pre-tick state and its
neighbour census `n`: rule application followed by the heat update. -/
def cellStep (p : Bool) (n : Nat) (c : Cell) : Cell :=
  let a := rulesApplied p n c
  if c.alive = false ∧ a.alive = true then a.increase_heat else a.decrease_heat

theorem nth_append_length {α : Type} (A : List α) (r : α) (B : List α) :
    nth (A ++ r :: B) A.length = some r := by
  induction A with
  | nil => rfl
  | cons a as ih => simpa [nth] using ih

theorem modifyL_append_length {α : Type} (A : List α) (r : α) (B : List α)
    (f : α → α) : modifyL (A ++ r :: B) A.length f = A ++ f r :: B := by
  induction A with
  | nil => rfl
  | cons a as ih => simpa [modifyL] using ih

theorem get2_shape (A B : List (List Cell)) (done rest : List Cell) (c : Cell) :
    get2 (A ++ (done ++ c :: rest) :: B) A.length done.length = some c := by
  simp [get2, nth_append_length]

theorem modify2_shape (A B : List (List Cell)) (done rest : List Cell)
    (c : Cell) (f : Cell → Cell) :
    modify2 (A ++ (done ++ c :: rest) :: B) A.length done.length f =
      A ++ (done ++ f c :: rest) :: B := by
  simp [modify2, modifyL_append_length]


theorem tickCellStep_shape (snap : List (List Cell)) (p : Bool)
    (A B : List (List Cell)) (done rest : List Cell) (c : Cell)
    (hx : c.x = done.length) (hy : c.y = A.length) :
    tickCellStep snap ⟨A ++ (done ++ c :: rest) :: B, p⟩ c =
      ⟨A ++ (done ++ cellStep p (censusOf snap c) c :: rest) :: B, p⟩ := by
  have hcoords : c.coords = (done.length, A.length) := by
    simp [Cell.coords, hx, hy]
  set n := censusOf snap c with hn
  simp only [tickCellStep, cellStep, rulesApplied, hcoords, Universe.alive,
    Universe.set_alive, Universe.increase_heat, Universe.decrease_heat, ← hn]
  cases p with
  | true =>
    simp only [Bool.true_eq_false, if_false, get2_shape, modify2_shape,
      Option.map_some', Option.getD_some]
    by_cases hc : c.alive = false ∧ c.alive = true
    · rw [if_pos hc, if_pos hc]
    · rw [if_neg hc, if_neg hc]
  | false =>
    simp only [if_true, eq_self_iff_true]
    by_cases h1 : c.alive = true ∧ n < 2
    · have h2 : ¬(c.alive = true ∧ n > 3) := by omega
      have h3 : ¬(c.alive = false ∧ n = 3) := by simp [h1.1]
      rw [if_pos h1, if_pos h1, if_neg h3, if_neg h3]
      simp only [get2_shape, modify2_shape, Option.map_some', Option.getD_some]
      rw [if_neg h2, if_neg h2]
      simp only [get2_shape, modify2_shape, Option.map_some', Option.getD_some]
      have hc : ¬(c.alive = false ∧ (c.set_alive false 0).alive = true) := by
        simp [h1.1]
      rw [if_neg hc, if_neg hc]
    · by_cases h2 : c.alive = true ∧ n > 3
      · have h3 : ¬(c.alive = false ∧ n = 3) := by simp [h2.1]
        rw [if_neg h1, if_neg h1, if_pos h2, if_pos h2, if_neg h3, if_neg h3]
        simp only [get2_shape, modify2_shape, Option.map_some', Option.getD_some]
        have hc : ¬(c.alive = false ∧ (c.set_alive false 0).alive = true) := by
          simp [h2.1]
        rw [if_neg hc, if_neg hc]
      · by_cases h3 : c.alive = false ∧ n = 3
        · rw [if_neg h1, if_neg h1, if_neg h2, if_neg h2, if_pos h3, if_pos h3]
          simp only [get2_shape, modify2_shape, Option.map_some', Option.getD_some]
          by_cases hc : c.alive = false ∧ (c.set_alive true 0).alive = true
          · rw [if_pos hc, if_pos hc]
          · rw [if_neg hc, if_neg hc]
        · rw [if_neg h1, if_neg h1, if_neg h2, if_neg h2, if_neg h3, if_neg h3]
          simp only [get2_shape, modify2_shape, Option.map_some', Option.getD_some]
          by_cases hc : c.alive = false ∧ c.alive = true
          · rw [if_pos hc, if_pos hc]
          · rw [if_neg hc, if_neg hc]

/-- Row-local coherence: the cells of a row segment sit at consecutive
columns starting at `x` of row `y` (stored coordinates match positions). -/
def coherentRowB (y : Nat) : Nat → List Cell → Bool
  | _, [] => true
  | x, c :: cs => (c.x == x) && (c.y == y) && coherentRowB y (x + 1) cs

/-- Grid coherence from row index `y` downward. -/
def coherentGridB : Nat → List (List Cell) → Bool
  | _, [] => true
  | y, r :: rs => coherentRowB y 0 r && coherentGridB (y + 1) rs

/-- A universe is coherent when every cell's stored `(x, y)` equals its
grid position.  `from_dimensions` builds coherent universes and every
operation preserves coherence. -/
def Coherent (u : Universe) : Prop := coherentGridB 0 u.rows = true

instance (u : Universe) : Decidable (Coherent u) := by
  unfold Coherent
  infer_instance

theorem foldl_row (snap : List (List Cell)) (p : Bool) :
    ∀ (todo done : List Cell) (A B : List (List Cell)),
      coherentRowB A.length done.length todo = true →
      List.foldl (tickCellStep snap) ⟨A ++ (done ++ todo) :: B, p⟩ todo =
        ⟨A ++ (done ++ todo.map (fun c => cellStep p (censusOf snap c) c)) :: B,
          p⟩ := by
  intro todo
  induction todo with
  | nil => intro done A B _; simp
  | cons c rest ih =>
    intro done A B hco
    have hx : c.x = done.length := by
      simp [coherentRowB] at hco
      omega
    have hy : c.y = A.length := by
      simp [coherentRowB] at hco
      omega
    have hco2 : coherentRowB A.length (done.length + 1) rest = true := by
      simp [coherentRowB] at hco
      exact hco.2
    have step := tickCellStep_shape snap p A B done rest c hx hy
    have ihx := ih (done ++ [cellStep p (censusOf snap c) c]) A B
      (by simpa using hco2)
    simp only [List.foldl_cons, step]
    have hgrid : done ++ cellStep p (censusOf snap c) c :: rest =
        (done ++ [cellStep p (censusOf snap c) c]) ++ rest := by simp
    rw [hgrid, ihx]
    simp

theorem foldl_grid (snap : List (List Cell)) (p : Bool) :
    ∀ (todo A : List (List Cell)),
      coherentGridB A.length todo = true →
      List.foldl (tickCellStep snap) ⟨A ++ todo, p⟩ todo.flatten =
        ⟨A ++ todo.map (List.map (fun c => cellStep p (censusOf snap c) c)),
          p⟩ := by
  intro todo
  induction todo with
  | nil => intro A _; simp
  | cons r rest ih =>
    intro A hco
    have hrow : coherentRowB A.length 0 r = true := by
      simp [coherentGridB] at hco
      exact hco.1
    have hrest : coherentGridB (A.length + 1) rest = true := by
      simp [coherentGridB] at hco
      exact hco.2
    have hsplit : (r :: rest).flatten = r ++ rest.flatten := by simp
    rw [hsplit, List.foldl_append]
    have h1 := foldl_row snap p r [] A rest hrow
    simp only [List.nil_append] at h1
    rw [h1]
    have ihx := ih (A ++ [r.map (fun c => cellStep p (censusOf snap c) c)])
      (by simpa using hrest)
    have hgrid : A ++ r.map (fun c => cellStep p (censusOf snap c) c) :: rest =
        (A ++ [r.map (fun c => cellStep p (censusOf snap c) c)]) ++ rest := by
      simp
    rw [hgrid, ihx]
    simp

/-- The snapshot refinement: on a coherent universe one `tick` equals a
pure map of `cellStep` (with the pre-tick census) over the pre-tick grid. -/
theorem tick_eq_map (u : Universe) (h : Coherent u) :
    u.tick =
      ⟨u.rows.map (List.map (fun c => cellStep u.paused (censusOf u.rows c) c)),
        u.paused⟩ := by
  have hg := foldl_grid u.rows u.paused u.rows [] (by simpa [Coherent] using h)
  simpa [Universe.tick] using hg

theorem Cell.set_alive_x (c : Cell) (a : Bool) (i : Int) :
    (c.set_alive a i).x = c.x := by
  unfold Cell.set_alive
  split <;> rfl

theorem Cell.set_alive_y (c : Cell) (a : Bool) (i : Int) :
    (c.set_alive a i).y = c.y := by
  unfold Cell.set_alive
  split <;> rfl

theorem Cell.set_alive_neighbours (c : Cell) (a : Bool) (i : Int) :
    (c.set_alive a i).neighbours = c.neighbours := by
  unfold Cell.set_alive
  split <;> rfl

theorem Cell.set_alive_heat (c : Cell) (a : Bool) (i : Int) :
    (c.set_alive a i).heat = c.heat := by
  unfold Cell.set_alive
  split <;> rfl

theorem Cell.increase_heat_x (c : Cell) : c.increase_heat.x = c.x := by
  unfold Cell.increase_heat
  split <;> rfl

theorem Cell.increase_heat_y (c : Cell) : c.increase_heat.y = c.y := by
  unfold Cell.increase_heat
  split <;> rfl

theorem Cell.increase_heat_alive (c : Cell) :
    c.increase_heat.alive = c.alive := by
  unfold Cell.increase_heat
  split <;> rfl

theorem Cell.increase_heat_ignore (c : Cell) :
    c.increase_heat.ignore = c.ignore := by
  unfold Cell.increase_heat
  split <;> rfl

theorem Cell.increase_heat_neighbours (c : Cell) :
    c.increase_heat.neighbours = c.neighbours := by
  unfold Cell.increase_heat
  split <;> rfl

theorem Cell.decrease_heat_x (c : Cell) : c.decrease_heat.x = c.x := by
  unfold Cell.decrease_heat
  split <;> rfl

theorem Cell.decrease_heat_y (c : Cell) : c.decrease_heat.y = c.y := by
  unfold Cell.decrease_heat
  split <;> rfl

theorem Cell.decrease_heat_alive (c : Cell) :
    c.decrease_heat.alive = c.alive := by
  unfold Cell.decrease_heat
  split <;> rfl

theorem Cell.decrease_heat_ignore (c : Cell) :
    c.decrease_heat.ignore = c.ignore := by
  unfold Cell.decrease_heat
  split <;> rfl

theorem Cell.decrease_heat_neighbours (c : Cell) :
    c.decrease_heat.neighbours = c.neighbours := by
  unfold Cell.decrease_heat
  split <;> rfl

theorem rulesApplied_x (p : Bool) (n : Nat) (c : Cell) :
    (rulesApplied p n c).x = c.x := by
  unfold rulesApplied
  split
  · split <;> split <;> split <;> simp [Cell.set_alive_x]
  · rfl

theorem rulesApplied_y (p : Bool) (n : Nat) (c : Cell) :
    (rulesApplied p n c).y = c.y := by
  unfold rulesApplied
  split
  · split <;> split <;> split <;> simp [Cell.set_alive_y]
  · rfl

theorem cellStep_x (p : Bool) (n : Nat) (c : Cell) :
    (cellStep p n c).x = c.x := by
  show (if c.alive = false ∧ (rulesApplied p n c).alive = true then
      (rulesApplied p n c).increase_heat
    else (rulesApplied p n c).decrease_heat).x = c.x
  split <;> simp [Cell.increase_heat_x, Cell.decrease_heat_x, rulesApplied_x]

theorem cellStep_y (p : Bool) (n : Nat) (c : Cell) :
    (cellStep p n c).y = c.y := by
  show (if c.alive = false ∧ (rulesApplied p n c).alive = true then
      (rulesApplied p n c).increase_heat
    else (rulesApplied p n c).decrease_heat).y = c.y
  split <;> simp [Cell.increase_heat_y, Cell.decrease_heat_y, rulesApplied_y]

/-- With the pause flag set, one cell step only decays the heat. -/
theorem cellStep_paused (n : Nat) (c : Cell) :
    cellStep true n c = c.decrease_heat := by
  unfold cellStep rulesApplied
  simp

theorem coherentRowB_map (f : Cell → Cell) (hx : ∀ c, (f c).x = c.x)
    (hy : ∀ c, (f c).y = c.y) :
    ∀ (l : List Cell) (y x : Nat), coherentRowB y x l = true →
      coherentRowB y x (l.map f) = true := by
  intro l
  induction l with
  | nil => intro y x _; rfl
  | cons c cs ih =>
    intro y x h
    simp [coherentRowB, hx, hy] at h ⊢
    exact ⟨⟨h.1.1, h.1.2⟩, ih y (x + 1) h.2⟩

theorem coherentGridB_map (f : Cell → Cell) (hx : ∀ c, (f c).x = c.x)
    (hy : ∀ c, (f c).y = c.y) :
    ∀ (rs : List (List Cell)) (y : Nat), coherentGridB y rs = true →
      coherentGridB y (rs.map (List.map f)) = true := by
  intro rs
  induction rs with
  | nil => intro y _; rfl
  | cons r rest ih =>
    intro y h
    simp [coherentGridB] at h ⊢
    exact ⟨coherentRowB_map f hx hy r y 0 h.1, ih (y + 1) h.2⟩

/-! ## Reachability through the public API and the heat invariant -/

/-- The public mutating operations of `Universe`. -/
inductive Op where
  | tick
  | pause
  | reset
  | set (coords : Nat × Nat) (b : Bool) (n : Int)

def applyOp (u : Universe) : Op → Universe
  | .tick => u.tick
  | .pause => u.pause
  | .reset => u.reset
  | .set coords b n => u.set_alive coords b n

def applyOps (u : Universe) (l : List Op) : Universe := l.foldl applyOp u

/-- Universe states reachable through the public API: a successful
construction from caller-buildable rows (`Cell::new` is the only public
cell constructor and always sets `heat = 1.0`, i.e. `2` half-units),
followed by any sequence of `tick`, `pause`, `reset`, `set_alive`. -/
inductive Reachable : Universe → Prop
  | new (rows : List (List Cell)) (u : Universe)
      (hheat : ∀ r ∈ rows, ∀ c ∈ r, c.heat = 2)
      (hnew : Universe.new rows = .ok u) : Reachable u
  | tick (u : Universe) : Reachable u → Reachable u.tick
  | pause (u : Universe) : Reachable u → Reachable u.pause
  | reset (u : Universe) : Reachable u → Reachable u.reset
  | set (u : Universe) (coords : Nat × Nat) (b : Bool) (n : Int) :
      Reachable u → Reachable (u.set_alive coords b n)

theorem reachable_applyOp {u : Universe} (h : Reachable u) (o : Op) :
    Reachable (applyOp u o) := by
  cases o with
  | tick => exact Reachable.tick u h
  | pause => exact Reachable.pause u h
  | reset => exact Reachable.reset u h
  | set coords b n => exact Reachable.set u coords b n h

theorem reachable_applyOps :
    ∀ (l : List Op) (u : Universe), Reachable u → Reachable (applyOps u l) := by
  intro l
  induction l with
  | nil => intro u h; exact h
  | cons o os ih =>
    intro u h
    exact ih (applyOp u o) (reachable_applyOp h o)

/-- The per-cell heat bound actually maintained by the code, in half-units:
`1.0 ≤ heat ≤ 1001.5`. -/
def heatBounded (c : Cell) : Prop := 2 ≤ c.heat ∧ c.heat ≤ 2003

/-- All cells of a grid satisfy the heat bound. -/
def HeatInvRows (rows : List (List Cell)) : Prop :=
  ∀ r ∈ rows, ∀ c ∈ r, heatBounded c

theorem heatBounded_set_alive (c : Cell) (a : Bool) (i : Int)
    (h : heatBounded c) : heatBounded (c.set_alive a i) := by
  unfold heatBounded at h ⊢
  rw [Cell.set_alive_heat]
  exact h

theorem heatBounded_increase (c : Cell) (h : heatBounded c) :
    heatBounded c.increase_heat := by
  unfold heatBounded at h ⊢
  unfold Cell.increase_heat
  split
  · dsimp only
    omega
  · omega

theorem heatBounded_decrease (c : Cell) (h : heatBounded c) :
    heatBounded c.decrease_heat := by
  unfold heatBounded at h ⊢
  unfold Cell.decrease_heat
  split
  · dsimp only
    omega
  · omega

theorem modifyL_pres {α : Type} (P : α → Prop) (f : α → α)
    (hf : ∀ a, P a → P (f a)) :
    ∀ (l : List α) (n : Nat), (∀ a ∈ l, P a) → ∀ a ∈ modifyL l n f, P a := by
  intro l
  induction l with
  | nil => intro n h a ha; cases ha
  | cons b bs ih =>
    intro n h a ha
    cases n with
    | zero =>
      rcases List.mem_cons.mp ha with rfl | ha2
      · exact hf b (h b (List.mem_cons_self b bs))
      · exact h a (List.mem_cons_of_mem b ha2)
    | succ m =>
      rcases List.mem_cons.mp ha with rfl | ha2
      · exact h a (List.mem_cons_self a bs)
      · exact ih m (fun z hz => h z (List.mem_cons_of_mem b hz)) a ha2

theorem modify2_heatInv (rows : List (List Cell)) (y x : Nat)
    (f : Cell → Cell) (hf : ∀ c, heatBounded c → heatBounded (f c))
    (h : HeatInvRows rows) : HeatInvRows (modify2 rows y x f) := by
  unfold HeatInvRows at h ⊢
  unfold modify2
  exact modifyL_pres (fun r => ∀ c ∈ r, heatBounded c)
    (fun r => modifyL r x f)
    (fun r hr => modifyL_pres heatBounded f hf r x hr) rows y h

theorem set_alive_heatInv (u : Universe) (q : Nat × Nat) (b : Bool) (n : Int)
    (h : HeatInvRows u.rows) : HeatInvRows (u.set_alive q b n).rows :=
  modify2_heatInv u.rows q.2 q.1 _
    (fun c hc => heatBounded_set_alive c b n hc) h

theorem increase_heatInv (u : Universe) (q : Nat × Nat)
    (h : HeatInvRows u.rows) : HeatInvRows (u.increase_heat q).rows :=
  modify2_heatInv u.rows q.2 q.1 _ heatBounded_increase h

theorem decrease_heatInv (u : Universe) (q : Nat × Nat)
    (h : HeatInvRows u.rows) : HeatInvRows (u.decrease_heat q).rows :=
  modify2_heatInv u.rows q.2 q.1 _ heatBounded_decrease h

theorem tickCellStep_heatInv (snap : List (List Cell)) (v : Universe)
    (c : Cell) (h : HeatInvRows v.rows) :
    HeatInvRows (tickCellStep snap v c).rows := by
  unfold tickCellStep
  dsimp only
  split_ifs <;>
    (repeat first
      | exact h
      | apply increase_heatInv
      | apply decrease_heatInv
      | apply set_alive_heatInv)

theorem foldl_tick_heatInv (snap : List (List Cell)) :
    ∀ (l : List Cell) (v : Universe), HeatInvRows v.rows →
      HeatInvRows (l.foldl (tickCellStep snap) v).rows := by
  intro l
  induction l with
  | nil => intro v h; exact h
  | cons c cs ih =>
    intro v h
    exact ih (tickCellStep snap v c) (tickCellStep_heatInv snap v c h)

theorem tick_heatInv (u : Universe) (h : HeatInvRows u.rows) :
    HeatInvRows u.tick.rows :=
  foldl_tick_heatInv u.rows u.rows.flatten u h

theorem reset_heatInv (u : Universe) : HeatInvRows u.reset.rows := by
  unfold HeatInvRows Universe.reset
  intro r hr c hc
  simp only [List.mem_map] at hr
  rcases hr with ⟨r0, _, rfl⟩
  simp only [List.mem_map] at hc
  rcases hc with ⟨c0, _, rfl⟩
  unfold heatBounded Cell.reset
  dsimp only
  omega

/-- A successful `Universe::new` returns exactly the given rows, paused. -/
theorem new_ok_rows {rows : List (List Cell)} {u : Universe}
    (h : Universe.new rows = .ok u) : u = ⟨rows, true⟩ := by
  cases rows with
  | nil => simp [Universe.new] at h
  | cons r0 rest =>
    have hh : Universe.new (r0 :: rest) =
        (match checkRows r0.length 0 (r0 :: rest) with
          | some e => Except.error e
          | none => Except.ok (⟨r0 :: rest, true⟩ : Universe)) := rfl
    rw [hh] at h
    cases hch : checkRows r0.length 0 (r0 :: rest) with
    | some e => rw [hch] at h; cases h
    | none => rw [hch] at h; exact (Except.ok.inj h).symm

/-- The heat invariant maintained by every reachable state. -/
theorem reachable_heatInv (u : Universe) (h : Reachable u) :
    HeatInvRows u.rows := by
  induction h with
  | new rows v hheat hnew =>
    have hrows : v.rows = rows := by
      rw [new_ok_rows hnew]
    rw [hrows]
    intro r hr c hc
    unfold heatBounded
    rw [hheat r hr c hc]
    omega
  | tick v _ ih => exact tick_heatInv v ih
  | pause v _ ih => exact ih
  | reset v _ _ => exact reset_heatInv v
  | set v coords b n _ ih => exact set_alive_heatInv v coords b n ih

/-! ## Iterated ticks while paused -/

/-- `n` successive `tick()` calls. -/
def ticksN (u : Universe) : Nat → Universe
  | 0 => u
  | n + 1 => (ticksN u n).tick

/-- `n` successive applications of `Cell::decrease_heat`. -/
def decIter (c : Cell) : Nat → Cell
  | 0 => c
  | n + 1 => (decIter c n).decrease_heat

theorem decIter_x (c : Cell) (n : Nat) : (decIter c n).x = c.x := by
  induction n with
  | zero => rfl
  | succ m ih => simp [decIter, Cell.decrease_heat_x, ih]

theorem decIter_y (c : Cell) (n : Nat) : (decIter c n).y = c.y := by
  induction n with
  | zero => rfl
  | succ m ih => simp [decIter, Cell.decrease_heat_y, ih]

theorem decIter_alive (c : Cell) (n : Nat) : (decIter c n).alive = c.alive := by
  induction n with
  | zero => rfl
  | succ m ih => simp [decIter, Cell.decrease_heat_alive, ih]

theorem decIter_ignore (c : Cell) (n : Nat) :
    (decIter c n).ignore = c.ignore := by
  induction n with
  | zero => rfl
  | succ m ih => simp [decIter, Cell.decrease_heat_ignore, ih]

theorem decIter_neighbours (c : Cell) (n : Nat) :
    (decIter c n).neighbours = c.neighbours := by
  induction n with
  | zero => rfl
  | succ m ih => simp [decIter, Cell.decrease_heat_neighbours, ih]

/-- A tick of a coherent, paused universe only decays every cell's heat. -/
theorem tick_paused (u : Universe) (hc : Coherent u) (hp : u.paused = true) :
    u.tick = ⟨u.rows.map (List.map Cell.decrease_heat), true⟩ := by
  rw [tick_eq_map u hc, hp]
  simp [cellStep_paused]

/-- `tick` preserves coherence. -/
theorem coherent_tick (u : Universe) (h : Coherent u) : Coherent u.tick := by
  rw [tick_eq_map u h]
  unfold Coherent at h ⊢
  exact coherentGridB_map _ (fun c => cellStep_x u.paused (censusOf u.rows c) c)
    (fun c => cellStep_y u.paused (censusOf u.rows c) c) u.rows 0 h

theorem ticksN_paused (rows : List (List Cell))
    (hc : Coherent ⟨rows, true⟩) :
    ∀ n : Nat, ticksN ⟨rows, true⟩ n =
      ⟨rows.map (List.map (fun c => decIter c n)), true⟩ := by
  intro n
  induction n with
  | zero =>
    show (⟨rows, true⟩ : Universe) = _
    simp [decIter]
  | succ m ih =>
    show (ticksN ⟨rows, true⟩ m).tick = _
    rw [ih]
    have hcm : Coherent ⟨rows.map (List.map (fun c => decIter c m)), true⟩ := by
      unfold Coherent at hc ⊢
      exact coherentGridB_map _ (fun c => decIter_x c m)
        (fun c => decIter_y c m) rows 0 hc
    rw [tick_paused _ hcm rfl]
    have hstep : ∀ c : Cell, Cell.decrease_heat (decIter c m) =
        decIter c (m + 1) := fun c => rfl
    simp only [List.map_map, Function.comp_def, hstep]

/-! ## The alive flag after one unpaused tick -/

theorem nth_map {α β : Type} (f : α → β) :
    ∀ (l : List α) (i : Nat), nth (l.map f) i = (nth l i).map f := by
  intro l
  induction l with
  | nil => intro i; rfl
  | cons a as ih =>
    intro i
    cases i with
    | zero => rfl
    | succ j => simp [nth, ih]

theorem get2_map {α β : Type} (f : α → β) (rows : List (List α)) (y x : Nat) :
    get2 (rows.map (List.map f)) y x = (get2 rows y x).map f := by
  unfold get2
  rw [nth_map]
  cases nth rows y with
  | none => rfl
  | some r => simp [nth_map]

theorem Cell.set_alive_false_alive (c : Cell) (i : Int) :
    (c.set_alive false i).alive = (c.alive && decide (0 < c.ignore)) := by
  unfold Cell.set_alive
  by_cases h : c.alive = true ∧ c.ignore > 0
  · rw [if_pos ⟨rfl, h⟩]
    simp [h.1, h.2]
  · rw [if_neg (fun hx => h hx.2)]
    by_cases hc : c.alive = true
    · have hig : ¬c.ignore > 0 := fun hg => h ⟨hc, hg⟩
      simp [hc, hig]
    · simp [hc]

theorem Cell.set_alive_true_alive (c : Cell) (i : Int) :
    (c.set_alive true i).alive = true := by
  unfold Cell.set_alive
  rw [if_neg (fun hx => by cases hx.1)]

theorem rulesApplied_false_alive (n : Nat) (c : Cell) :
    (rulesApplied false n c).alive =
      (if c.alive = true then
        (if n < 2 ∨ n > 3 then (if 0 < c.ignore then true else false) else true)
      else (if n = 3 then true else false)) := by
  have huf : rulesApplied false n c =
      (if c.alive = false ∧ n = 3 then
        (if c.alive = true ∧ n > 3 then
          (if c.alive = true ∧ n < 2 then c.set_alive false 0
            else c).set_alive false 0
        else (if c.alive = true ∧ n < 2 then c.set_alive false 0
          else c)).set_alive true 0
      else (if c.alive = true ∧ n > 3 then
        (if c.alive = true ∧ n < 2 then c.set_alive false 0
          else c).set_alive false 0
      else (if c.alive = true ∧ n < 2 then c.set_alive false 0
        else c))) := rfl
  rw [huf]
  by_cases hcv : c.alive = true
  · rw [if_neg (fun hx : c.alive = false ∧ n = 3 => by
      rw [hcv] at hx; cases hx.1)]
    by_cases h1 : n < 2
    · rw [if_neg (fun hx : c.alive = true ∧ n > 3 => absurd hx.2 (by omega)),
        if_pos ⟨hcv, h1⟩, Cell.set_alive_false_alive, if_pos hcv,
        if_pos (Or.inl h1), hcv]
      by_cases hi : 0 < c.ignore <;> simp [hi]
    · by_cases h2 : n > 3
      · rw [if_pos ⟨hcv, h2⟩,
          if_neg (fun hx : c.alive = true ∧ n < 2 => h1 hx.2),
          Cell.set_alive_false_alive, if_pos hcv, if_pos (Or.inr h2), hcv]
        by_cases hi : 0 < c.ignore <;> simp [hi]
      · rw [if_neg (fun hx : c.alive = true ∧ n > 3 => h2 hx.2),
          if_neg (fun hx : c.alive = true ∧ n < 2 => h1 hx.2), if_pos hcv,
          if_neg (show ¬(n < 2 ∨ n > 3) by omega)]
        exact hcv
  · have hcf : c.alive = false := by
      cases hb : c.alive
      · rfl
      · exact absurd hb hcv
    by_cases h3 : n = 3
    · rw [if_pos ⟨hcf, h3⟩,
        if_neg (fun hx : c.alive = true ∧ n > 3 => hcv hx.1),
        if_neg (fun hx : c.alive = true ∧ n < 2 => hcv hx.1),
        Cell.set_alive_true_alive, if_neg hcv, if_pos h3]
    · rw [if_neg (fun hx : c.alive = false ∧ n = 3 => h3 hx.2),
        if_neg (fun hx : c.alive = true ∧ n > 3 => hcv hx.1),
        if_neg (fun hx : c.alive = true ∧ n < 2 => hcv hx.1), if_neg hcv,
        if_neg h3]
      exact hcf

/-- The alive flag produced by one unpaused per-cell step: deaths are
applied only when the debounce budget is exhausted, births always are. -/
theorem cellStep_alive (n : Nat) (c : Cell) :
    (cellStep false n c).alive =
      (if c.alive = true then
        (if n < 2 ∨ n > 3 then (if 0 < c.ignore then true else false) else true)
      else (if n = 3 then true else false)) := by
  show (if c.alive = false ∧ (rulesApplied false n c).alive = true then
      (rulesApplied false n c).increase_heat
    else (rulesApplied false n c).decrease_heat).alive = _
  rw [← rulesApplied_false_alive n c]
  split
  · rw [Cell.increase_heat_alive]
  · rw [Cell.decrease_heat_alive]

/-! ## Validation characterization -/

theorem checkRows_none_iff (w : Nat) :
    ∀ (rs : List (List Cell)) (i : Nat),
      checkRows w i rs = none ↔ ∀ r ∈ rs, r.length = w ∧ r.length ≠ 0 := by
  intro rs
  induction rs with
  | nil => intro i; simp [checkRows]
  | cons r rest ih =>
    intro i
    unfold checkRows
    by_cases h0 : r.length = 0
    · rw [if_pos h0]
      constructor
      · intro hx; cases hx
      · intro hall
        exact absurd h0 (hall r (List.mem_cons_self r rest)).2
    · rw [if_neg h0]
      by_cases hw : r.length ≠ w
      · rw [if_pos hw]
        constructor
        · intro hx; cases hx
        · intro hall
          exact absurd (hall r (List.mem_cons_self r rest)).1 hw
      · rw [if_neg hw]
        have hww : r.length = w := by
          by_contra hcc
          exact hw hcc
        rw [ih (i + 1)]
        constructor
        · intro hall q hq
          rcases List.mem_cons.mp hq with rfl | hq2
          · exact ⟨hww, h0⟩
          · exact hall q hq2
        · intro hall q hq
          exact hall q (List.mem_cons_of_mem r hq)

theorem checkRows_some_mem (w : Nat) :
    ∀ (rs : List (List Cell)) (i : Nat) (e : ValidationError),
      checkRows w i rs = some e →
      ∃ k, ∃ hk : k < rs.length,
        (e = ValidationError.notEnoughCellsInRow (i + k)
            (rs.get ⟨k, hk⟩).length ∧ (rs.get ⟨k, hk⟩).length = 0) ∨
        (e = ValidationError.incorrectAmountInRow (i + k) w
            (rs.get ⟨k, hk⟩).length ∧ (rs.get ⟨k, hk⟩).length ≠ w) := by
  intro rs
  induction rs with
  | nil => intro i e h; cases h
  | cons r rest ih =>
    intro i e h
    unfold checkRows at h
    by_cases h0 : r.length = 0
    · rw [if_pos h0] at h
      refine ⟨0, by simp, Or.inl ⟨?_, h0⟩⟩
      cases h
      simp [h0]
    · rw [if_neg h0] at h
      by_cases hw : r.length ≠ w
      · rw [if_pos hw] at h
        refine ⟨0, by simp, Or.inr ⟨?_, hw⟩⟩
        cases h
        simp
      · rw [if_neg hw] at h
        rcases ih (i + 1) e h with ⟨k, hk, hcase⟩
        refine ⟨k + 1, by simpa using Nat.succ_lt_succ hk, ?_⟩
        have harith : i + 1 + k = i + (k + 1) := by omega
        have hget : (r :: rest).get ⟨k + 1, by simpa using Nat.succ_lt_succ hk⟩
            = rest.get ⟨k, hk⟩ := rfl
        rw [hget, ← harith]
        exact hcase

/-! ## Rendering after a reset -/

theorem foldl_row_chars (row : List Cell) (hdead : ∀ c ∈ row, c.alive = false) :
    ∀ o : List Char,
      row.foldl (fun o c =>
          o ++ [if c.alive = true then Char.ofNat 42 else Char.ofNat 46]) o =
        o ++ List.replicate row.length (Char.ofNat 46) := by
  induction row with
  | nil => intro o; simp
  | cons c cs ih =>
    intro o
    have hc : c.alive = false := hdead c (List.mem_cons_self c cs)
    have hcs : ∀ q ∈ cs, q.alive = false :=
      fun q hq => hdead q (List.mem_cons_of_mem c hq)
    simp only [List.foldl_cons, hc]
    rw [ih hcs (o ++ [if false = true then Char.ofNat 42 else Char.ofNat 46])]
    simp [List.replicate_succ]

theorem foldl_grid_chars (rows : List (List Cell))
    (hdead : ∀ r ∈ rows, ∀ c ∈ r, c.alive = false) :
    ∀ o : List Char,
      rows.foldl (fun out row =>
          (row.foldl (fun o c =>
            o ++ [if c.alive = true then Char.ofNat 42 else Char.ofNat 46])
            out) ++ [Char.ofNat 10]) o =
        o ++ (rows.map (fun r =>
          List.replicate r.length (Char.ofNat 46) ++ [Char.ofNat 10])).flatten := by
  induction rows with
  | nil => intro o; simp
  | cons r rest ih =>
    intro o
    have hr : ∀ c ∈ r, c.alive = false := hdead r (List.mem_cons_self r rest)
    have hrest : ∀ q ∈ rest, ∀ c ∈ q, c.alive = false :=
      fun q hq => hdead q (List.mem_cons_of_mem r hq)
    simp only [List.foldl_cons]
    rw [foldl_row_chars r hr o, ih hrest]
    simp

theorem nth_eq_get {α : Type} : ∀ (l : List α) (i : Nat), nth l i = l.get? i := by
  intro l
  induction l with
  | nil => intro i; cases i <;> rfl
  | cons a as ih =>
    intro i
    cases i with
    | zero => rfl
    | succ j => simp [nth, ih]

theorem nth_range_map {α : Type} (f : Nat → α) (n i : Nat) :
    nth ((List.range n).map f) i = if i < n then some (f i) else none := by
  rw [nth_eq_get, List.get?_map]
  by_cases h : i < n
  · rw [List.get?_range h, if_pos h]
    rfl
  · rw [if_neg h, List.get?_eq_none.mpr (by simpa using Nat.le_of_not_lt h)]
    rfl

theorem new_ok_of_valid (rows : List (List Cell)) (hne : rows ≠ [])
    (hval : checkRows (rows.headD []).length 0 rows = none) :
    Universe.new rows = .ok ⟨rows, true⟩ := by
  cases rows with
  | nil => exact absurd rfl hne
  | cons r0 rest =>
    have hh : Universe.new (r0 :: rest) =
        (match checkRows r0.length 0 (r0 :: rest) with
          | some e => Except.error e
          | none => Except.ok (⟨r0 :: rest, true⟩ : Universe)) := rfl
    rw [hh]
    simp only [List.headD] at hval
    rw [hval]

theorem new_error_of_invalid (rows : List (List Cell)) (hne : rows ≠ [])
    (e : ValidationError)
    (hval : checkRows (rows.headD []).length 0 rows = some e) :
    Universe.new rows = .error e := by
  cases rows with
  | nil => exact absurd rfl hne
  | cons r0 rest =>
    have hh : Universe.new (r0 :: rest) =
        (match checkRows r0.length 0 (r0 :: rest) with
          | some e => Except.error e
          | none => Except.ok (⟨r0 :: rest, true⟩ : Universe)) := rfl
    rw [hh]
    simp only [List.headD] at hval
    rw [hval]

theorem new_ok_checkRows {rows : List (List Cell)} {u : Universe}
    (h : Universe.new rows = .ok u) :
    rows ≠ [] ∧ checkRows (rows.headD []).length 0 rows = none := by
  cases rows with
  | nil => simp [Universe.new] at h
  | cons r0 rest =>
    refine ⟨by simp, ?_⟩
    simp only [List.headD]
    by_contra hcc
    cases hch : checkRows r0.length 0 (r0 :: rest) with
    | none => exact hcc hch
    | some e =>
      rw [new_error_of_invalid (r0 :: rest) (by simp) e
        (by simpa using hch)] at h
      cases h

/-! ## Concrete scenarios -/

/-- The all-dead 3-row, 3-column grid of `from_dimensions(3, 3)`. -/
def rows33 : List (List Cell) :=
  (List.range 3).map (fun i => (List.range 3).map (fun j => Cell.new 3 3 j i false))

/-- The all-dead 1-row, 3-column grid of `from_dimensions(3, 1)`. -/
def rows31 : List (List Cell) :=
  (List.range 1).map (fun i => (List.range 3).map (fun j => Cell.new 3 1 j i false))

/-- The single cell of a `from_dimensions(1, 1)` universe. -/
def cell11 : Cell := Cell.new 1 1 0 0 false

/-- A 1x1 universe whose lone cell was set alive externally, then unpaused. -/
def U11 : Universe := (Universe.set_alive ⟨[[cell11]], true⟩ (0, 0) true 0).pause

/-- A 3x3 universe whose centre was made alive with debounce budget 5,
then unpaused. -/
def UC1 : Universe := (Universe.set_alive ⟨rows33, true⟩ (1, 1) true 5).pause

/-- A 3x3 universe (still paused) whose centre was made alive. -/
def UC6 : Universe := Universe.set_alive ⟨rows33, true⟩ (1, 1) true 0

/-- An unpaused 3x3 universe carrying a horizontal line of three live
cells on its middle row. -/
def UW1 : Universe :=
  ((((⟨rows33, true⟩ : Universe).set_alive (0, 1) true 0).set_alive
    (1, 1) true 0).set_alive (2, 1) true 0).pause

/-- The top-middle cell of `rows33`, untouched in `UW1`. -/
def cellW1 : Cell := Cell.new 3 3 1 0 false

/-! ## A reachable state whose heat exceeds 1000.0

On the 3x1 torus every cell's neighbour list is its own slot twice, its
left neighbour three times and its right neighbour three times.  Keeping
cell `(0,0)` alive and killing `(1,0)` and `(2,0)` externally after every
tick makes both of the latter cells be born again on every tick, so their
heat climbs `+2.0` per tick; after 500 ticks it passes `1000.0` (the
increase guard only checks that the heat was below `1000.0` before
adding). -/

/-- The state of the 3x1 scenario after `k` tick/kill/kill rounds,
parameterised by the round count (heat in half-units: `2 + 4k`). -/
def stateU (k : Nat) : Universe :=
  ⟨[[{ Cell.new 3 1 0 0 false with alive := true },
     { Cell.new 3 1 1 0 false with heat := 2 + 4 * (k : Int) },
     { Cell.new 3 1 2 0 false with heat := 2 + 4 * (k : Int) }]], false⟩

/-- 25 rounds of: tick, kill `(1,0)`, kill `(2,0)`. -/
def chunkOps : List Op :=
  (List.replicate 25 [Op.tick, Op.set (1, 0) false 0,
    Op.set (2, 0) false 0]).flatten

/-- Unpause and make `(0,0)` alive. -/
def prelimOps : List Op := [Op.pause, Op.set (0, 0) true 0]

set_option maxRecDepth 10000 in
/-- The state after 500 rounds is reachable through the public API. -/
theorem stateU500_reachable : Reachable (stateU 500) := by
  have hnew : Universe.new rows31 = .ok ⟨rows31, true⟩ := by rfl
  have r00 : Reachable (⟨rows31, true⟩ : Universe) :=
    Reachable.new rows31 ⟨rows31, true⟩ (by decide) hnew
  have h0 : applyOps ⟨rows31, true⟩ prelimOps = stateU 0 := by decide
  have r0 : Reachable (stateU 0) :=
    h0 ▸ reachable_applyOps prelimOps ⟨rows31, true⟩ r00
  have h25 : applyOps (stateU 0) chunkOps = stateU 25 := by decide
  have r25 : Reachable (stateU 25) :=
    h25 ▸ reachable_applyOps chunkOps (stateU 0) r0
  have h50 : applyOps (stateU 25) chunkOps = stateU 50 := by decide
  have r50 : Reachable (stateU 50) :=
    h50 ▸ reachable_applyOps chunkOps (stateU 25) r25
  have h75 : applyOps (stateU 50) chunkOps = stateU 75 := by decide
  have r75 : Reachable (stateU 75) :=
    h75 ▸ reachable_applyOps chunkOps (stateU 50) r50
  have h100 : applyOps (stateU 75) chunkOps = stateU 100 := by decide
  have r100 : Reachable (stateU 100) :=
    h100 ▸ reachable_applyOps chunkOps (stateU 75) r75
  have h125 : applyOps (stateU 100) chunkOps = stateU 125 := by decide
  have r125 : Reachable (stateU 125) :=
    h125 ▸ reachable_applyOps chunkOps (stateU 100) r100
  have h150 : applyOps (stateU 125) chunkOps = stateU 150 := by decide
  have r150 : Reachable (stateU 150) :=
    h150 ▸ reachable_applyOps chunkOps (stateU 125) r125
  have h175 : applyOps (stateU 150) chunkOps = stateU 175 := by decide
  have r175 : Reachable (stateU 175) :=
    h175 ▸ reachable_applyOps chunkOps (stateU 150) r150
  have h200 : applyOps (stateU 175) chunkOps = stateU 200 := by decide
  have r200 : Reachable (stateU 200) :=
    h200 ▸ reachable_applyOps chunkOps (stateU 175) r175
  have h225 : applyOps (stateU 200) chunkOps = stateU 225 := by decide
  have r225 : Reachable (stateU 225) :=
    h225 ▸ reachable_applyOps chunkOps (stateU 200) r200
  have h250 : applyOps (stateU 225) chunkOps = stateU 250 := by decide
  have r250 : Reachable (stateU 250) :=
    h250 ▸ reachable_applyOps chunkOps (stateU 225) r225
  have h275 : applyOps (stateU 250) chunkOps = stateU 275 := by decide
  have r275 : Reachable (stateU 275) :=
    h275 ▸ reachable_applyOps chunkOps (stateU 250) r250
  have h300 : applyOps (stateU 275) chunkOps = stateU 300 := by decide
  have r300 : Reachable (stateU 300) :=
    h300 ▸ reachable_applyOps chunkOps (stateU 275) r275
  have h325 : applyOps (stateU 300) chunkOps = stateU 325 := by decide
  have r325 : Reachable (stateU 325) :=
    h325 ▸ reachable_applyOps chunkOps (stateU 300) r300
  have h350 : applyOps (stateU 325) chunkOps = stateU 350 := by decide
  have r350 : Reachable (stateU 350) :=
    h350 ▸ reachable_applyOps chunkOps (stateU 325) r325
  have h375 : applyOps (stateU 350) chunkOps = stateU 375 := by decide
  have r375 : Reachable (stateU 375) :=
    h375 ▸ reachable_applyOps chunkOps (stateU 350) r350
  have h400 : applyOps (stateU 375) chunkOps = stateU 400 := by decide
  have r400 : Reachable (stateU 400) :=
    h400 ▸ reachable_applyOps chunkOps (stateU 375) r375
  have h425 : applyOps (stateU 400) chunkOps = stateU 425 := by decide
  have r425 : Reachable (stateU 425) :=
    h425 ▸ reachable_applyOps chunkOps (stateU 400) r400
  have h450 : applyOps (stateU 425) chunkOps = stateU 450 := by decide
  have r450 : Reachable (stateU 450) :=
    h450 ▸ reachable_applyOps chunkOps (stateU 425) r425
  have h475 : applyOps (stateU 450) chunkOps = stateU 475 := by decide
  have r475 : Reachable (stateU 475) :=
    h475 ▸ reachable_applyOps chunkOps (stateU 450) r450
  have h500 : applyOps (stateU 475) chunkOps = stateU 500 := by decide
  have r500 : Reachable (stateU 500) :=
    h500 ▸ reachable_applyOps chunkOps (stateU 475) r475
  exact r500

/-! ## The claims -/

/-- Claim C1, corrected: on a coherent, unpaused universe, one `tick()`
sets each cell's alive flag by the standard Conway ruleset over the
pre-tick generation, except that a rule death against a cell whose
debounce counter is positive is suppressed (the cell stays alive): a live
cell with census outside `[2,3]` is dead afterwards only when its
`ignore` counter was `0`, a dead cell with census `3` is alive afterwards,
and every other cell keeps its pre-tick alive value. -/
theorem C1_tick_rules (u : Universe) (hco : Coherent u)
    (hp : u.paused = false) (x y : Nat) (c : Cell)
    (hc : get2 u.rows y x = some c) :
    u.tick.alive (x, y) =
      (if c.alive = true then
        (if censusOf u.rows c < 2 ∨ censusOf u.rows c > 3 then
          (if 0 < c.ignore then true else false)
        else true)
      else (if censusOf u.rows c = 3 then true else false)) := by
  rw [tick_eq_map u hco]
  unfold Universe.alive
  dsimp only
  rw [get2_map, hc, hp]
  simp only [Option.map_some', Option.getD_some]
  exact cellStep_alive (censusOf u.rows c) c

/-- Claim C1, counterexample to the claim as stated: in the unpaused 3x3
universe `UC1` the centre cell is alive with zero live neighbours (fewer
than 2), yet after one `tick()` it is still alive, because its debounce
counter (set to 5 by the external `set_alive`) suppresses the rule death. -/
theorem C1_counterexample :
    UC1.paused = false ∧
    (get2 UC1.rows 1 1).map Cell.alive = some true ∧
    (get2 UC1.rows 1 1).map (censusOf UC1.rows) = some 0 ∧
    UC1.tick.alive (1, 1) = true := by decide

/-- Claim C1, witness: the amended theorem applied to the unpaused 3x3
universe `UW1` at the dead top-middle cell, whose census is 3. -/
theorem C1_witness :
    Coherent UW1 ∧ UW1.paused = false ∧ get2 UW1.rows 0 1 = some cellW1 ∧
    UW1.tick.alive (1, 0) =
      (if cellW1.alive = true then
        (if censusOf UW1.rows cellW1 < 2 ∨ censusOf UW1.rows cellW1 > 3 then
          (if 0 < cellW1.ignore then true else false)
        else true)
      else (if censusOf UW1.rows cellW1 = 3 then true else false)) :=
  ⟨by decide, by decide, by decide,
    C1_tick_rules UW1 (by decide) (by decide) 1 0 cellW1 (by decide)⟩

/-- Claim C3, confirmed: `tick()` on a coherent universe equals the grid
obtained by applying, to each cell independently, the pure per-cell
function `cellStep` of that cell's pre-tick state and the pre-tick census
of its 8 precomputed neighbour coordinates — hence the result is
independent of the iteration order. -/
theorem C3_snapshot_refinement (u : Universe) (h : Coherent u) :
    u.tick =
      ⟨u.rows.map (List.map (fun c => cellStep u.paused (censusOf u.rows c) c)),
        u.paused⟩ :=
  tick_eq_map u h

/-- Claim C3, witness: the refinement applied to the concrete 3x3 blinker
universe `UW1`. -/
theorem C3_witness :
    Coherent UW1 ∧
    UW1.tick =
      ⟨UW1.rows.map (List.map (fun c =>
        cellStep UW1.paused (censusOf UW1.rows c) c)), UW1.paused⟩ :=
  ⟨by decide, C3_snapshot_refinement UW1 (by decide)⟩

/-- Claim C4, confirmed: `Cell::set_alive(target, ignore_budget)` is total
and either suppresses a death request (decrementing only `ignore` and
leaving `alive = true`, coordinates, neighbours and heat unchanged) or
applies the request and resets the budget, with heat, coordinates and
neighbours unchanged. -/
theorem C4_cell_set_alive (c : Cell) (target : Bool) (budget : Int) :
    c.set_alive target budget =
      (if target = false ∧ c.alive = true ∧ c.ignore > 0 then
        { x := c.x, y := c.y, alive := true, neighbours := c.neighbours,
          ignore := c.ignore - 1, heat := c.heat }
      else
        { x := c.x, y := c.y, alive := target, neighbours := c.neighbours,
          ignore := budget, heat := c.heat }) := by
  unfold Cell.set_alive
  split
  case isTrue h => rw [← h.2.1]
  case isFalse h => rfl

/-- Claim C5, confirmed: a live cell holding debounce budget 2 survives
two successive `set_alive(false, 2)` death requests (each decrementing
the budget) and dies on the third. -/
theorem C5_debounce_budget_two (c : Cell) (ha : c.alive = true)
    (hi : c.ignore = 2) :
    (c.set_alive false 2).alive = true ∧ (c.set_alive false 2).ignore = 1 ∧
    ((c.set_alive false 2).set_alive false 2).alive = true ∧
    ((c.set_alive false 2).set_alive false 2).ignore = 0 ∧
    (((c.set_alive false 2).set_alive false 2).set_alive false 2).alive
      = false := by
  have e1 : c.set_alive false 2 = { c with ignore := c.ignore - 1 } := by
    unfold Cell.set_alive
    rw [if_pos ⟨rfl, ha, by omega⟩]
  have e2 : ({ c with ignore := c.ignore - 1 } : Cell).set_alive false 2 =
      { c with ignore := c.ignore - 2 } := by
    unfold Cell.set_alive
    rw [if_pos ⟨rfl, ha, by dsimp only; omega⟩]
    have harith : c.ignore - 1 - 1 = c.ignore - 2 := by omega
    dsimp only
    rw [harith]
  have e3 : ({ c with ignore := c.ignore - 2 } : Cell).set_alive false 2 =
      { c with alive := false, ignore := 2 } := by
    unfold Cell.set_alive
    rw [if_neg (fun hx => absurd hx.2.2 (by dsimp only; omega))]
  refine ⟨?_, ?_, ?_, ?_, ?_⟩
  · rw [e1]
    exact ha
  · rw [e1]
    dsimp only
    omega
  · rw [e1, e2]
    exact ha
  · rw [e1, e2]
    dsimp only
    omega
  · rw [e1, e2, e3]

/-- A live cell with debounce budget 2 (for the C5 witness). -/
def cellD : Cell := { Cell.new 1 1 0 0 true with ignore := 2 }

/-- Claim C5, witness: the debounce scenario run on the concrete live
cell `cellD` with budget 2. -/
theorem C5_witness :
    cellD.alive = true ∧ cellD.ignore = 2 ∧
    ((cellD.set_alive false 2).alive = true ∧
      (cellD.set_alive false 2).ignore = 1 ∧
      ((cellD.set_alive false 2).set_alive false 2).alive = true ∧
      ((cellD.set_alive false 2).set_alive false 2).ignore = 0 ∧
      (((cellD.set_alive false 2).set_alive false 2).set_alive
        false 2).alive = false) :=
  ⟨rfl, rfl, C5_debounce_budget_two cellD rfl rfl⟩

/-- Claim C2, corrected: in every reachable state every cell's heat lies
in `[1.0, 1001.5]` (not `[1.0, 1000.0]`: the increase step only checks
that the heat was below `1000.0` before adding `2.0`, so it can overshoot
to at most `1001.5`). -/
theorem C2_heat_bounds (u : Universe) (h : Reachable u) :
    ∀ r ∈ u.rows, ∀ c ∈ r, 1 ≤ c.heatValue ∧ c.heatValue ≤ 2003 / 2 := by
  intro r hr c hc
  have hb := reachable_heatInv u h r hr c hc
  unfold heatBounded at hb
  unfold Cell.heatValue
  constructor
  · have h2 : (2 : ℚ) ≤ (c.heat : ℚ) := by exact_mod_cast hb.1
    linarith
  · have h3 : (c.heat : ℚ) ≤ 2003 := by exact_mod_cast hb.2
    linarith

/-- Claim C2, counterexample to the claimed upper bound `1000.0`: the
state `stateU 500` is reachable through the public API and its cell
`(1,0)` has heat `1001.0 > 1000.0`. -/
theorem C2_counterexample :
    Reachable (stateU 500) ∧
    (get2 (stateU 500).rows 0 1).map Cell.heatValue = some 1001 ∧
    ¬((1001 : ℚ) ≤ 1000) := by
  refine ⟨stateU500_reachable, ?_, by norm_num⟩
  have hcell : get2 (stateU 500).rows 0 1 =
      some { Cell.new 3 1 1 0 false with heat := 2002 } := by decide
  rw [hcell]
  simp only [Option.map_some']
  have hv : ({ Cell.new 3 1 1 0 false with heat := 2002 } : Cell).heatValue
      = 1001 := by
    unfold Cell.heatValue
    norm_num
  rw [hv]

/-- Claim C2, witness: the amended bounds applied to the first cell of the
freshly constructed universe over `rows31`. -/
theorem C2_witness :
    1 ≤ (Cell.new 3 1 0 0 false).heatValue ∧
      (Cell.new 3 1 0 0 false).heatValue ≤ 2003 / 2 :=
  C2_heat_bounds ⟨rows31, true⟩
    (Reachable.new rows31 ⟨rows31, true⟩ (by decide) (by rfl))
    ((List.range 3).map (fun j => Cell.new 3 1 j 0 false)) (by decide)
    (Cell.new 3 1 0 0 false) (by decide)

/-- A head of a nonempty list is a member. -/
theorem headD_mem {α : Type} (l : List α) (d : α) (h : l ≠ []) :
    l.headD d ∈ l := by
  cases l with
  | nil => exact absurd rfl h
  | cons a as => simp

/-- An unpaused all-dead 1x3 universe (for the C6 witness). -/
def UW6 : Universe := ⟨rows31, false⟩

/-- Claim C6, corrected: calling `pause()` on an *unpaused* universe (the
flag toggles, so it becomes paused) freezes every alive flag under any
number of subsequent `tick()` calls, while each tick applies
`decrease_heat` to every cell; `decIter` leaves alive, ignore,
coordinates and neighbours unchanged. -/
theorem C6_pause_freeze (u : Universe) (hco : Coherent u)
    (hp : u.paused = false) (n : Nat) :
    ticksN u.pause n =
      ⟨u.rows.map (List.map (fun c => decIter c n)), true⟩ ∧
    ∀ c : Cell, (decIter c n).alive = c.alive ∧
      (decIter c n).ignore = c.ignore ∧ (decIter c n).x = c.x ∧
      (decIter c n).y = c.y ∧ (decIter c n).neighbours = c.neighbours := by
  constructor
  · have hpause : u.pause = ⟨u.rows, true⟩ := by
      unfold Universe.pause
      rw [hp]
      rfl
    rw [hpause]
    exact ticksN_paused u.rows (by unfold Coherent at hco ⊢; exact hco) n
  · intro c
    exact ⟨decIter_alive c n, decIter_ignore c n, decIter_x c n,
      decIter_y c n, decIter_neighbours c n⟩

set_option maxRecDepth 10000 in
/-- Claim C6, counterexample to the claim as stated: `UC6` is paused (its
initial state) with a live centre cell; calling `pause()` unpauses it, and
the next `tick()` kills the centre cell, so a `pause()` call does not
always freeze the alive flags. -/
theorem C6_counterexample :
    UC6.paused = true ∧ UC6.alive (1, 1) = true ∧
    (UC6.pause).tick.alive (1, 1) = false := by decide

/-- Claim C6, witness: the freeze applied to the unpaused universe `UW6`
for two ticks. -/
theorem C6_witness :
    Coherent UW6 ∧ UW6.paused = false ∧
    (ticksN UW6.pause 2 =
        ⟨UW6.rows.map (List.map (fun c => decIter c 2)), true⟩ ∧
      ∀ c : Cell, (decIter c 2).alive = c.alive ∧
        (decIter c 2).ignore = c.ignore ∧ (decIter c 2).x = c.x ∧
        (decIter c 2).y = c.y ∧ (decIter c 2).neighbours = c.neighbours) :=
  ⟨by decide, rfl, C6_pause_freeze UW6 (by decide) rfl 2⟩

/-- Claim C7, confirmed: `Universe::new` succeeds exactly when the row set
is nonempty with all rows of equal nonzero width; on success the universe
holds exactly the given rows with the pause flag true (so no partial grid
is ever observable); on failure the error names the offending row index
and that row's width (or reports the empty row set). -/
theorem C7_new_validation (rows : List (List Cell)) :
    ((∃ u, Universe.new rows = Except.ok u) ↔
      (rows ≠ [] ∧ ∀ r ∈ rows,
        r.length = (rows.headD []).length ∧ r.length ≠ 0)) ∧
    (∀ u, Universe.new rows = Except.ok u → u = ⟨rows, true⟩) ∧
    (∀ e, Universe.new rows = Except.error e →
      (rows = [] ∧ e = ValidationError.notEnoughRows 0) ∨
      (∃ k, ∃ hk : k < rows.length,
        (e = ValidationError.notEnoughCellsInRow k (rows.get ⟨k, hk⟩).length
          ∧ (rows.get ⟨k, hk⟩).length = 0) ∨
        (e = ValidationError.incorrectAmountInRow k (rows.headD []).length
            (rows.get ⟨k, hk⟩).length
          ∧ (rows.get ⟨k, hk⟩).length ≠ (rows.headD []).length))) := by
  refine ⟨⟨?_, ?_⟩, fun u hu => new_ok_rows hu, ?_⟩
  · rintro ⟨u, hu⟩
    rcases new_ok_checkRows hu with ⟨hne, hchk⟩
    exact ⟨hne, (checkRows_none_iff (rows.headD []).length rows 0).mp hchk⟩
  · rintro ⟨hne, hall⟩
    exact ⟨⟨rows, true⟩, new_ok_of_valid rows hne
      ((checkRows_none_iff (rows.headD []).length rows 0).mpr hall)⟩
  · intro e he
    cases rows with
    | nil =>
      left
      refine ⟨rfl, ?_⟩
      have hx : (Except.error (ValidationError.notEnoughRows 0) :
          Except ValidationError Universe) = Except.error e := he
      exact (Except.error.inj hx).symm
    | cons r0 rest =>
      right
      cases hch : checkRows r0.length 0 (r0 :: rest) with
      | none =>
        rw [new_ok_of_valid (r0 :: rest) (by simp)
          (by simpa using hch)] at he
        cases he
      | some e2 =>
        rw [new_error_of_invalid (r0 :: rest) (by simp) e2
          (by simpa using hch)] at he
        have hee : e2 = e := Except.error.inj he
        subst hee
        rcases checkRows_some_mem r0.length (r0 :: rest) 0 e2 hch with
          ⟨k, hk, hcase⟩
        refine ⟨k, hk, ?_⟩
        simpa using hcase

/-- Claim C7, witness: a valid single-row, single-cell grid is accepted
and returned exactly, paused. -/
theorem C7_witness :
    Universe.new [[cell11]] = Except.ok ⟨[[cell11]], true⟩ := by
  obtain ⟨u, hu⟩ := (C7_new_validation [[cell11]]).1.mpr (by decide)
  have h2 := (C7_new_validation [[cell11]]).2.1 u hu
  rw [h2] at hu
  exact hu

/-- Claim C8, confirmed: for positive dimensions `from_dimensions`
succeeds with `height` rows of `width` cells, each cell dead with heat
`1.0`, ignore `0`, and stored coordinates equal to its (column, row)
position. -/
theorem C8_from_dimensions (w h : Nat) (hw : 0 < w) (hh : 0 < h) :
    ∃ u, Universe.from_dimensions w h = Except.ok u ∧
      u.rows.length = h ∧ (∀ r ∈ u.rows, r.length = w) ∧
      (∀ i j c, get2 u.rows i j = some c →
        c.alive = false ∧ c.heatValue = 1 ∧ c.ignore = 0 ∧
        c.x = j ∧ c.y = i) := by
  refine ⟨⟨(List.range h).map (fun i => (List.range w).map
    (fun j => Cell.new w h j i false)), true⟩, ?_, by simp, ?_, ?_⟩
  · show Universe.new _ = _
    have hne : (List.range h).map (fun i => (List.range w).map
        (fun j => Cell.new w h j i false)) ≠ [] := by
      intro hx
      have hlen := congrArg List.length hx
      simp at hlen
      omega
    have hall : ∀ r ∈ (List.range h).map (fun i => (List.range w).map
        (fun j => Cell.new w h j i false)), r.length = w := by
      intro r hr
      rcases List.mem_map.mp hr with ⟨i, _, rfl⟩
      simp
    apply new_ok_of_valid _ hne
    rw [hall _ (headD_mem _ _ hne), checkRows_none_iff]
    intro r hr
    exact ⟨hall r hr, by rw [hall r hr]; omega⟩
  · intro r hr
    rcases List.mem_map.mp hr with ⟨i, _, rfl⟩
    simp
  · intro i j c hc
    unfold get2 at hc
    rw [nth_range_map] at hc
    by_cases hih : i < h
    · rw [if_pos hih] at hc
      simp only [Option.some_bind] at hc
      rw [nth_range_map] at hc
      by_cases hjw : j < w
      · rw [if_pos hjw] at hc
        cases hc
        refine ⟨rfl, ?_, rfl, rfl, rfl⟩
        unfold Cell.heatValue
        norm_num [Cell.new]
      · rw [if_neg hjw] at hc
        cases hc
    · rw [if_neg hih] at hc
      cases hc

/-- Claim C8, witness: `from_dimensions 3 2` at the concrete dimensions. -/
theorem C8_witness :
    0 < 3 ∧ 0 < 2 ∧
    (∃ u, Universe.from_dimensions 3 2 = Except.ok u ∧
      u.rows.length = 2 ∧ (∀ r ∈ u.rows, r.length = 3) ∧
      (∀ i j c, get2 u.rows i j = some c →
        c.alive = false ∧ c.heatValue = 1 ∧ c.ignore = 0 ∧
        c.x = j ∧ c.y = i)) :=
  ⟨by decide, by decide, C8_from_dimensions 3 2 (by decide) (by decide)⟩

/-- Claim C9, confirmed: `reset()` sets every cell to dead with heat `1.0`
and ignore `0` while preserving the pause flag and every cell's
coordinates and neighbour set, and `summarize()` right after a reset
renders one newline-terminated line of `'.'` characters per row. -/
theorem C9_reset_baseline (u : Universe) :
    u.reset.paused = u.paused ∧
    u.reset.rows = u.rows.map (List.map (fun c =>
      { x := c.x, y := c.y, alive := false, neighbours := c.neighbours,
        ignore := 0, heat := 2 })) ∧
    (∀ r ∈ u.reset.rows, ∀ c ∈ r,
      c.alive = false ∧ c.heatValue = 1 ∧ c.ignore = 0) ∧
    u.reset.summarize = String.mk ((u.rows.map (fun r =>
      List.replicate r.length (Char.ofNat 46) ++ [Char.ofNat 10])).flatten)
    := by
  have hrowseq : u.reset.rows = u.rows.map (List.map Cell.reset) := rfl
  have hdead : ∀ r ∈ u.reset.rows, ∀ c ∈ r, c.alive = false := by
    rw [hrowseq]
    intro r hr c hc
    rcases List.mem_map.mp hr with ⟨r0, _, rfl⟩
    rcases List.mem_map.mp hc with ⟨c0, _, rfl⟩
    rfl
  refine ⟨rfl, rfl, ?_, ?_⟩
  · rw [hrowseq]
    intro r hr c hc
    rcases List.mem_map.mp hr with ⟨r0, _, rfl⟩
    rcases List.mem_map.mp hc with ⟨c0, _, rfl⟩
    refine ⟨rfl, ?_, rfl⟩
    unfold Cell.heatValue Cell.reset
    norm_num
  · unfold Universe.summarize
    congr 1
    rw [foldl_grid_chars u.reset.rows hdead]
    rw [hrowseq]
    simp [List.map_map, Function.comp_def]

/-- Claim C9, witness: the reset characterization applied to the concrete
3x3 universe `UC6` (whose centre cell is alive before the reset). -/
theorem C9_witness :
    UC6.reset.summarize = String.mk ((UC6.rows.map (fun r =>
      List.replicate r.length (Char.ofNat 46) ++ [Char.ofNat 10])).flatten)
    :=
  (C9_reset_baseline UC6).2.2.2

set_option maxRecDepth 10000 in
/-- Claim C10, confirmed: on a `from_dimensions(1,1)` universe all 8
precomputed neighbour coordinates of the lone cell are `(0,0)` (the
cell's own position), the unpaused tick census therefore counts the live
cell itself 8 times, and the lone live cell is dead after one `tick()`. -/
theorem C10_one_by_one :
    Universe.from_dimensions 1 1 = Except.ok ⟨[[cell11]], true⟩ ∧
    cell11.neighbours.to_vec = List.replicate 8 ((0, 0) : Nat × Nat) ∧
    U11.paused = false ∧
    (get2 U11.rows 0 0).map Cell.alive = some true ∧
    (get2 U11.rows 0 0).map (censusOf U11.rows) = some 8 ∧
    U11.tick.alive (0, 0) = false := by
  refine ⟨by rfl, by decide, by decide, by decide, by decide, by decide⟩
